import Mathlib

/-!
Shallow embedding of the weed-tracker statistics and persistence core
(the tracker application class in the repository source).  JavaScript
values that flow through the validators are modelled by `JSVal`;
machine time is modelled in integer milliseconds; JS numbers that carry
amounts and prices are modelled as exact rationals.  Date parsing
(the JS `new Date(string)` constructor) is environment dependent, so it
is passed around as an explicit parameter `pd : JSVal → Option Int`
returning the epoch milliseconds on success.
-/

namespace WeedTracker

/-- A primitive JavaScript value as seen by the validators.  `nan` is kept
separate from other numbers because `typeof NaN` is `number` while `NaN`
is falsy and all its comparisons are false. -/
inductive JSVal where
  | num (x : ℚ)
  | nan
  | str (s : String)
  | jbool (b : Bool)
  | null
deriving DecidableEq

/-- JS truthiness of a value. -/
def truthy : JSVal → Bool
  | .num x => decide (x ≠ 0)
  | .nan => false
  | .str s => decide (s ≠ "")
  | .jbool b => b
  | .null => false

/-- Truthiness of an object field, where a missing field reads as
`undefined`, which is falsy. -/
def fieldTruthy : Option JSVal → Bool
  | some v => truthy v
  | none => false

/-- Models `typeof v === 'number'` on an optional field. -/
def fieldIsNum : Option JSVal → Bool
  | some (.num _) => true
  | some .nan => true
  | _ => false

/-- Models `typeof v === 'string'` on an optional field. -/
def fieldIsStr : Option JSVal → Bool
  | some (.str _) => true
  | _ => false

/-- Models the JS comparison `v <= 0` on a field already known to be a
number; `NaN <= 0` is false in JS. -/
def fieldNumNonpos : Option JSVal → Bool
  | some (.num x) => decide (x ≤ 0)
  | _ => false

/-- Models the JS comparison `v < 0` on a field already known to be a
number; `NaN < 0` is false in JS. -/
def fieldNumNeg : Option JSVal → Bool
  | some (.num x) => decide (x < 0)
  | _ => false

/-- Models `isValidDate` applied to an optional field: the date string
must parse to a non-NaN date under the ambient parse function `pd`. -/
def fieldValidDate (pd : JSVal → Option Int) : Option JSVal → Bool
  | some v => (pd v).isSome
  | none => false

/-- The fields a candidate entry record may carry; `none` models an
absent (undefined) field. -/
structure CandFields where
  id : Option JSVal
  amount : Option JSVal
  method : Option JSVal
  notes : Option JSVal
  mood : Option JSVal
  timestamp : Option JSVal
deriving DecidableEq

/-- A candidate entry as delivered by JSON parsing: either a primitive
(non-object) value or a record of fields. -/
inductive Cand where
  | prim (v : JSVal)
  | record (f : CandFields)
deriving DecidableEq

/-- Embedding of `validateEntry` from the tracker source: the guard
chain is translated clause for clause, in source order. -/
def validateEntry (pd : JSVal → Option Int) : Cand → Bool
  | .prim _ => false
  | .record f =>
    if !fieldTruthy f.id || !fieldIsNum f.id then false
    else if !fieldTruthy f.amount || !fieldIsNum f.amount || fieldNumNonpos f.amount then false
    else if !fieldTruthy f.method || !fieldIsStr f.method then false
    else if fieldTruthy f.notes && !fieldIsStr f.notes then false
    else if fieldTruthy f.mood && !fieldIsStr f.mood then false
    else if !fieldTruthy f.timestamp || !fieldValidDate pd f.timestamp then false
    else true

/-- A sample date parse function used to instantiate the abstract parse
parameter `pd` on concrete inputs: every non-empty string parses (to
epoch 0), everything else fails, as the environment date parser does on
the empty string. -/
def sampleParse : JSVal → Option Int
  | .str s => if s = "" then none else some 0
  | _ => none

/-- The fields a candidate goals object may carry. -/
structure GoalsRec where
  weeklyAmount : Option JSVal
  goalType : Option JSVal
  stashAmount : Option JSVal
  startDate : Option JSVal
  stashStartDate : Option JSVal
deriving DecidableEq

/-- A candidate goals object: primitive or record. -/
inductive GoalsCand where
  | prim (v : JSVal)
  | record (g : GoalsRec)
deriving DecidableEq

/-- The admissible goal types, from the `includes` check in the source. -/
def goalTypeNames : List String := ["reduce", "maintain", "quit", "stash"]

/-- Models the source check on the goal type field: truthy and contained
in the goal type list (strict string equality in `includes`). -/
def goalTypeOk : Option JSVal → Bool
  | some (.str s) => decide (s ≠ "") && decide (s ∈ goalTypeNames)
  | _ => false

/-- Embedding of `validateGoals` from the tracker source. -/
def validateGoals : GoalsCand → Bool
  | .prim _ => false
  | .record g =>
    if !fieldIsNum g.weeklyAmount || fieldNumNeg g.weeklyAmount then false
    else if !goalTypeOk g.goalType then false
    else if g.stashAmount.isSome && (!fieldIsNum g.stashAmount || fieldNumNeg g.stashAmount) then
      false
    else true

/-- The fields a candidate settings object may carry. -/
structure SettingsRec where
  pricePerGram : Option JSVal
  currency : Option JSVal
deriving DecidableEq

/-- A candidate settings object: primitive or record. -/
inductive SettingsCand where
  | prim (v : JSVal)
  | record (s : SettingsRec)
deriving DecidableEq

/-- Embedding of `validateSettings` from the tracker source. -/
def validateSettings : SettingsCand → Bool
  | .prim _ => false
  | .record s =>
    if !fieldIsNum s.pricePerGram || fieldNumNeg s.pricePerGram then false
    else if !fieldTruthy s.currency || !fieldIsStr s.currency then false
    else true

/-- The entries field of an import document: either not an array
(covers absent and primitive values, rejected by `Array.isArray`) or a
list of candidate entries. -/
inductive EntriesCand where
  | notArr (v : JSVal)
  | arr (l : List Cand)
deriving DecidableEq

/-- An import or export document after JSON parsing. -/
inductive ImportDoc where
  | prim (v : JSVal)
  | record (entries : EntriesCand) (goals : GoalsCand) (settings : SettingsCand)
      (exportDate : Option JSVal)
deriving DecidableEq

/-- Embedding of `validateImportData`: document must be structured, its
entries an array, goals and settings valid, and every entry valid. -/
def validateImportData (pd : JSVal → Option Int) : ImportDoc → Bool
  | .prim _ => false
  | .record es g s _ =>
    match es with
    | .notArr _ => false
    | .arr l =>
      if !validateGoals g then false
      else if !validateSettings s then false
      else l.all (validateEntry pd)

/-- Embedding of `validateExportData`: like import validation but the
individual entries are not validated and the export date must be a
valid date. -/
def validateExportData (pd : JSVal → Option Int) : ImportDoc → Bool
  | .prim _ => false
  | .record es g s d =>
    match es with
    | .notArr _ => false
    | .arr _ =>
      if !validateGoals g then false
      else if !validateSettings s then false
      else if !fieldTruthy d || !fieldValidDate pd d then false
      else true

/-- The in-memory application state replaced wholesale by an import. -/
structure AppState where
  entries : List Cand
  goals : GoalsCand
  settings : SettingsCand
deriving DecidableEq

/-- Embedding of the document built by `exportData`: the current
entries, goals and settings plus an export date. -/
def exportDoc (st : AppState) (exportDate : JSVal) : ImportDoc :=
  .record (.arr st.entries) st.goals st.settings (some exportDate)

/-- The state replacement performed by `performImport` on an accepted
document: entries, goals and settings are copied from the document. -/
def performImportState (doc : ImportDoc) (st : AppState) : AppState :=
  match doc with
  | .record (.arr l) g s _ => ⟨l, g, s⟩
  | _ => st

/-- The import control flow of the file reader callback: a document
failing `validateImportData` is rejected with a message and the state is
left untouched; an accepted one replaces the state. -/
def importFlow (pd : JSVal → Option Int) (doc : ImportDoc) (st : AppState) : AppState :=
  if validateImportData pd doc then performImportState doc st else st

/-- A validated in-memory entry, as used by the statistics engine.  The
timestamp is the parsed consumption moment in epoch milliseconds (every
in-memory entry passed `validateEntry`, so its timestamp parses). -/
structure Entry where
  id : Int
  amount : ℚ
  method : String
  notes : String
  mood : String
  timestamp : Int
deriving DecidableEq

/-- The result of the rolling 24-hour aggregate. -/
structure TodayStats where
  count : Nat
  amount : ℚ
  cost : ℚ
deriving DecidableEq

/-- Rounding to two decimals, the numeric content of `toFixed(2)`. -/
def roundTo2 (x : ℚ) : ℚ := (round (x * 100) : ℚ) / 100

/-- Embedding of `updateTodayStats`: filter the entries whose timestamp
lies between 24 hours ago and now (both inclusive), then count, sum the
amounts, and price the sum. -/
def updateTodayStats (entries : List Entry) (pricePerGram : ℚ) (now : Int) : TodayStats :=
  let twentyFourHoursAgo := now - 24 * 60 * 60 * 1000
  let last24HoursEntries := entries.filter fun e =>
    decide (twentyFourHoursAgo ≤ e.timestamp) && decide (e.timestamp ≤ now)
  let last24HoursAmount := last24HoursEntries.foldl (fun sum e => sum + e.amount) 0
  { count := last24HoursEntries.length
    amount := last24HoursAmount
    cost := roundTo2 (last24HoursAmount * pricePerGram) }

/-- The validated in-memory goals object. -/
structure Goals where
  weeklyAmount : ℚ
  goalType : String
  stashAmount : ℚ
  startDate : Option Int
  stashStartDate : Option Int
deriving DecidableEq

/-- The numeric content of `toFixed(1)`: round to one decimal and print
with exactly one digit after the point. -/
def toFixed1 (x : ℚ) : String :=
  let n := round (x * 10)
  let a := n.natAbs
  (if n < 0 then "-" else "") ++ toString (a / 10) ++ "." ++ toString (a % 10)

/-- Embedding of `updateStashProgress`: a non-positive (or falsy) stash
amount yields the prompt; otherwise sum the amounts consumed since the
stash start date (now when that date is null), clamp the percentage at
100, and phrase the remaining or depleted text. -/
def updateStashProgress (goals : Goals) (entries : List Entry) (now : Int) : ℚ × String :=
  if goals.stashAmount ≤ 0 then
    (0, "Set a stash goal to track your weed supply")
  else
    let stashStartDate := goals.stashStartDate.getD now
    let entriesSinceStash := entries.filter fun e => decide (stashStartDate ≤ e.timestamp)
    let totalUsed := entriesSinceStash.foldl (fun sum e => sum + e.amount) 0
    let remainingStash := goals.stashAmount - totalUsed
    let progress := min (totalUsed / goals.stashAmount * 100) 100
    if remainingStash > 0 then
      (progress, toFixed1 remainingStash ++ "g left in stash")
    else
      (progress, "Stash depleted by " ++ toFixed1 |remainingStash| ++ "g")

/-- The total amount consumed since the stash start date (or since now
when that date is null), stated independently as a filter-map-sum; the
code computes the same value with a fold. -/
def totalUsedSince (goals : Goals) (entries : List Entry) (now : Int) : ℚ :=
  ((entries.filter fun e => decide (goals.stashStartDate.getD now ≤ e.timestamp)).map
    fun e => e.amount).sum

/-- Milliseconds in a day. -/
def msPerDay : Int := 86400000

/-- Local midnight truncation of an epoch-millisecond instant, the
effect of `setHours(0,0,0,0)` under a fixed timezone offset `off`
(milliseconds east of UTC). -/
def dayStart (off t : Int) : Int := t - (t + off).emod msPerDay

/-- The backward day walk of `calculateStreak`.  The JS loop is
unbounded; here it carries fuel, and `calculateStreak` supplies one more
unit of fuel than there are entries, which the walk can never exhaust
since each counted day consumes at least one distinct entry. -/
def streakLoop (off : Int) (entries : List Entry) : Nat → Int → Nat
  | 0, _ => 0
  | fuel + 1, day =>
    if entries.any (fun e => decide (dayStart off e.timestamp = day)) then
      streakLoop off entries fuel (day - msPerDay) + 1
    else 0

/-- Embedding of `calculateStreak`: empty list reports no streak;
otherwise walk backward from the local midnight of now, counting
consecutive days that contain an entry, and label the count. -/
def calculateStreak (off : Int) (entries : List Entry) (now : Int) : Nat × String :=
  if entries.isEmpty then (0, "No streak yet")
  else
    let today := dayStart off now
    let hasEntryToday := entries.any fun e => decide (dayStart off e.timestamp = today)
    let streakCount := streakLoop off entries (entries.length + 1) today
    if streakCount = 0 then (0, "No streak yet")
    else if hasEntryToday then (streakCount, "day streak (including today)")
    else (streakCount, "day streak (last entry yesterday)")

/-- Embedding of `getMethodLabel`: the lookup map with fallback to the
raw method string. -/
def getMethodLabel (method : String) : String :=
  if method = "joint" then "Joint"
  else if method = "bong" then "Bong"
  else if method = "pipe" then "Pipe"
  else if method = "cigarette" then "Cigarette"
  else if method = "vape" then "Vape"
  else if method = "edible" then "Edible"
  else if method = "other" then "Other"
  else method

/-- The scan of `calculateTimeSinceLastJoint` for the most recent entry:
fold over all entries keeping the strictly later timestamp, seeded with
the first entry. -/
def mostRecent (e0 : Entry) (entries : List Entry) : Entry :=
  entries.foldl (fun best e => if best.timestamp < e.timestamp then e else best) e0

/-- The result of the time-since-last-event computation. -/
structure TimeSince where
  value : Int
  unit : String
  text : String
deriving DecidableEq

/-- Embedding of `calculateTimeSinceLastJoint`.  Locale time formatting
and JS number printing are display conversions supplied as parameters
`fmtAmount` and `fmtTime`; the decimal literals 30.44 and 365.25 are
modelled as exact rationals. -/
def calculateTimeSinceLastJoint (fmtAmount : ℚ → String) (fmtTime : Int → String)
    (entries : List Entry) (now : Int) : TimeSince :=
  match entries with
  | [] => ⟨0, "hours", "No usage yet"⟩
  | e0 :: _ =>
    let m := mostRecent e0 entries
    let timeDiff := now - m.timestamp
    let minutes := timeDiff.fdiv (1000 * 60)
    let hours := timeDiff.fdiv (1000 * 60 * 60)
    let days := timeDiff.fdiv (1000 * 60 * 60 * 24)
    let months : Int := ⌊(days : ℚ) / (761 / 25)⌋
    let years : Int := ⌊(days : ℚ) / (1461 / 4)⌋
    let text := "Last usage: " ++ fmtAmount m.amount ++ "g " ++ getMethodLabel m.method ++
      " at " ++ fmtTime m.timestamp
    if 0 < years then ⟨min years 99, "years", text⟩
    else if 0 < months then ⟨min months 99, "months", text⟩
    else if 0 < days then ⟨min days 99, "days", text⟩
    else if 0 < hours then ⟨min hours 99, "hours", text⟩
    else ⟨min minutes 99, "minutes", text⟩

/-- Insertion step of a stable descending sort keyed by `key`: walk past
strictly larger keys and insert before the first key that is not
strictly larger, so earlier elements win ties. -/
def insDescBy {α : Type} (key : α → Int) (e : α) : List α → List α
  | [] => [e]
  | x :: xs => if key e < key x then x :: insDescBy key e xs else e :: x :: xs

/-- Stable descending insertion sort keyed by `key`, the model of the JS
array sort with the comparator subtracting timestamps (stable descending
by timestamp). -/
def sortDescBy {α : Type} (key : α → Int) : List α → List α
  | [] => []
  | x :: xs => insDescBy key x (sortDescBy key xs)

/-- Embedding of the entry part of `loadEntries`: keep the entries
passing validation, then sort descending by timestamp.  The validity
predicate is abstract here because this typed model only represents
already-parseable records. -/
def loadEntries (valid : Entry → Bool) (parsed : List Entry) : List Entry :=
  sortDescBy (fun e => e.timestamp) (parsed.filter valid)

/-- Embedding of the collection mutation in `addEntry`: push the new
entry, then re-sort descending by consumption timestamp. -/
def addEntry (entries : List Entry) (entry : Entry) : List Entry :=
  sortDescBy (fun e => e.timestamp) (entries ++ [entry])

/-- Embedding of the collection mutation in `deleteEntry`: keep the
entries whose id differs. -/
def deleteEntry (entries : List Entry) (id : Int) : List Entry :=
  entries.filter fun e => decide (e.id ≠ id)

/-- Descending-by-timestamp sortedness of the in-memory entry list. -/
def SortedDesc (l : List Entry) : Prop :=
  l.Pairwise fun a b => b.timestamp ≤ a.timestamp

/-- A backup snapshot written before an import commits, as stored under
a backup key. -/
structure Backup where
  snapshot : AppState
  backupDate : Int
deriving DecidableEq

/-- The backup portion of the key-value store: pairs of the numeric part
of a backup key (epoch milliseconds; the 13-digit key suffixes order the
same lexicographically and numerically) and the stored snapshot. -/
def Store : Type := List (Int × Backup)

/-- Models `localStorage.setItem` on a backup key: the key is bound to
the new value and any previous binding of the same key disappears. -/
def storeSet (k : Int) (b : Backup) (store : Store) : Store :=
  (k, b) :: store.filter fun kv => decide (kv.1 ≠ k)

/-- Embedding of `cleanupOldBackups`: collect the backup keys, sort them
descending, and keep only the entries bound to the five most recent
keys. -/
def cleanupOldBackups (store : Store) : Store :=
  let keep := (sortDescBy (fun k => k) (store.map Prod.fst)).take 5
  store.filter fun kv => decide (kv.1 ∈ keep)

/-- The store effect of `performImport` committing at time `now`: write
the snapshot of the current state under the new backup key, then clean
up old backups. -/
def performImportStore (now : Int) (st : AppState) (store : Store) : Store :=
  cleanupOldBackups (storeSet now ⟨st, now⟩ store)

/-- A sequence of committed imports, each backing up the state current
at that commit. -/
def importSequence (l : List (Int × AppState)) (store : Store) : Store :=
  l.foldl (fun s p => performImportStore p.1 p.2 s) store

/-! Helper lemmas about the stable descending insertion sort. -/

theorem mem_insDescBy {α : Type} (key : α → Int) (e a : α) (l : List α) :
    a ∈ insDescBy key e l ↔ a = e ∨ a ∈ l := by
  induction l with
  | nil => simp [insDescBy]
  | cons x xs ih =>
    simp only [insDescBy]
    split
    · simp only [List.mem_cons, ih]
      tauto
    · simp only [List.mem_cons]

theorem pairwise_insDescBy {α : Type} (key : α → Int) (e : α) (l : List α)
    (h : l.Pairwise fun a b => key b ≤ key a) :
    (insDescBy key e l).Pairwise fun a b => key b ≤ key a := by
  induction l with
  | nil => simp [insDescBy]
  | cons x xs ih =>
    rcases List.pairwise_cons.mp h with ⟨hx, hxs⟩
    simp only [insDescBy]
    split
    · rename_i hlt
      refine List.pairwise_cons.mpr ⟨?_, ih hxs⟩
      intro b hb
      rcases (mem_insDescBy key e b xs).mp hb with rfl | hbxs
      · exact le_of_lt hlt
      · exact hx b hbxs
    · rename_i hge
      refine List.pairwise_cons.mpr ⟨?_, h⟩
      intro b hb
      rcases List.mem_cons.mp hb with rfl | hbxs
      · exact not_lt.mp hge
      · exact le_trans (hx b hbxs) (not_lt.mp hge)

theorem perm_insDescBy {α : Type} (key : α → Int) (e : α) (l : List α) :
    List.Perm (insDescBy key e l) (e :: l) := by
  induction l with
  | nil => exact List.Perm.refl _
  | cons x xs ih =>
    simp only [insDescBy]
    split
    · exact (ih.cons x).trans (List.Perm.swap e x xs)
    · exact List.Perm.refl _

theorem pairwise_sortDescBy {α : Type} (key : α → Int) (l : List α) :
    (sortDescBy key l).Pairwise fun a b => key b ≤ key a := by
  induction l with
  | nil => simp [sortDescBy]
  | cons x xs ih => exact pairwise_insDescBy key x _ ih

theorem perm_sortDescBy {α : Type} (key : α → Int) (l : List α) :
    List.Perm (sortDescBy key l) l := by
  induction l with
  | nil => exact List.Perm.refl _
  | cons x xs ih => exact (perm_insDescBy key x _).trans (ih.cons x)

theorem filter_insDescBy {α : Type} (key : α → Int) (e : α) (l : List α) (c : Int) :
    (insDescBy key e l).filter (fun a => decide (key a = c)) =
      if key e = c then e :: l.filter (fun a => decide (key a = c))
      else l.filter (fun a => decide (key a = c)) := by
  induction l with
  | nil =>
    simp only [insDescBy, List.filter]
    split <;> simp_all
  | cons x xs ih =>
    simp only [insDescBy]
    split
    · rename_i hlt
      by_cases hc : key e = c
      · have hxc : ¬ key x = c := by
          intro hx
          rw [hc] at hlt
          omega
        simp [List.filter_cons, hc, hxc, ih]
      · simp [List.filter_cons, ih, hc]
    · by_cases hc : key e = c <;> simp [List.filter_cons, hc]

theorem filter_sortDescBy {α : Type} (key : α → Int) (l : List α) (c : Int) :
    (sortDescBy key l).filter (fun a => decide (key a = c)) =
      l.filter (fun a => decide (key a = c)) := by
  induction l with
  | nil => rfl
  | cons x xs ih =>
    by_cases hc : key x = c <;>
      simp [sortDescBy, filter_insDescBy, ih, List.filter_cons, hc]

theorem sortDescBy_of_strict {α : Type} (key : α → Int) (l : List α)
    (h : l.Pairwise fun a b => key b < key a) :
    sortDescBy key l = l := by
  induction l with
  | nil => rfl
  | cons x xs ih =>
    rcases List.pairwise_cons.mp h with ⟨hx, hxs⟩
    simp only [sortDescBy, ih hxs]
    cases xs with
    | nil => rfl
    | cons y ys =>
      simp only [insDescBy]
      rw [if_neg]
      exact not_lt.mpr (le_of_lt (hx y (List.mem_cons_self y ys)))

theorem foldl_add_amount (l : List Entry) (a : ℚ) :
    l.foldl (fun sum e => sum + e.amount) a = a + (l.map fun e => e.amount).sum := by
  induction l generalizing a with
  | nil => simp
  | cons x xs ih => simp [ih, add_assoc]

theorem calculateStreak_eq (off : Int) (entries : List Entry) (now : Int) :
    calculateStreak off entries now =
      if entries.any (fun e => decide (dayStart off e.timestamp = dayStart off now)) then
        (streakLoop off entries entries.length (dayStart off now - msPerDay) + 1,
          "day streak (including today)")
      else (0, "No streak yet") := by
  by_cases hemp : entries = []
  · subst hemp
    simp [calculateStreak]
  · have hne : entries.isEmpty = false := by
      simpa [List.isEmpty_iff] using hemp
    cases hA : entries.any fun e => decide (dayStart off e.timestamp = dayStart off now) with
    | false => simp [calculateStreak, hne, hA, streakLoop]
    | true => simp [calculateStreak, hne, hA, streakLoop]

/-- Claim C1: the streak count is 0 exactly when no entry falls on the
calendar day of now (local midnight truncation); whenever the count is
positive the day of now has an entry and the label is the
including-today one, and the last-entry-yesterday label is unreachable. -/
theorem C1_streakZeroIffNoEntryToday (off : Int) (entries : List Entry) (now : Int) :
    ((calculateStreak off entries now).1 = 0 ↔
      ∀ e ∈ entries, dayStart off e.timestamp ≠ dayStart off now) ∧
    (0 < (calculateStreak off entries now).1 →
      (∃ e ∈ entries, dayStart off e.timestamp = dayStart off now) ∧
      (calculateStreak off entries now).2 = "day streak (including today)") ∧
    (calculateStreak off entries now).2 ≠ "day streak (last entry yesterday)" := by
  rw [calculateStreak_eq]
  cases hA : entries.any fun e => decide (dayStart off e.timestamp = dayStart off now) with
  | false =>
    have hall : ∀ e ∈ entries, dayStart off e.timestamp ≠ dayStart off now := by
      intro e he
      have := List.any_eq_false.mp hA e he
      simpa using this
    rw [if_neg (by simp)]
    refine ⟨by simpa using hall, by simp, by simp⟩
  | true =>
    have hex : ∃ e ∈ entries, dayStart off e.timestamp = dayStart off now := by
      rcases List.any_eq_true.mp hA with ⟨e, he, hp⟩
      exact ⟨e, he, by simpa using hp⟩
    rw [if_pos rfl]
    refine ⟨?_, ?_, ?_⟩
    · constructor
      · intro h
        exact absurd h (Nat.succ_ne_zero _)
      · intro h
        rcases hex with ⟨e, he, hp⟩
        exact absurd hp (h e he)
    · intro _
      exact ⟨hex, rfl⟩
    · simp

/-- Claim C1 witness: a concrete execution with an entry on the day of
now has a positive count and the including-today label. -/
theorem C1_streakZeroIffNoEntryToday_witness :
    0 < (calculateStreak 0 [⟨1, 1, "joint", "", "", 0⟩] 0).1 ∧
    (calculateStreak 0 [⟨1, 1, "joint", "", "", 0⟩] 0).2 =
      "day streak (including today)" := by
  have h := (C1_streakZeroIffNoEntryToday 0 [⟨1, 1, "joint", "", "", 0⟩] 0).2.1 (by decide)
  exact ⟨by decide, h.2⟩

/-- Claim C2: the today aggregate counts exactly the entries in the
inclusive rolling window from 24 hours before now to now, sums their
amounts, and prices the sum rounded to two decimals. -/
theorem C2_todayAggregateWindow (entries : List Entry) (pricePerGram : ℚ) (now : Int) :
    (updateTodayStats entries pricePerGram now).count =
      entries.countP (fun e =>
        decide (now - 24 * 60 * 60 * 1000 ≤ e.timestamp) && decide (e.timestamp ≤ now)) ∧
    (updateTodayStats entries pricePerGram now).amount =
      ((entries.filter fun e =>
        decide (now - 24 * 60 * 60 * 1000 ≤ e.timestamp) && decide (e.timestamp ≤ now)).map
          fun e => e.amount).sum ∧
    (updateTodayStats entries pricePerGram now).cost =
      roundTo2 ((updateTodayStats entries pricePerGram now).amount * pricePerGram) := by
  refine ⟨?_, ?_, ?_⟩
  · simp [updateTodayStats, List.countP_eq_length_filter]
  · simp [updateTodayStats, foldl_add_amount]
  · simp [updateTodayStats, foldl_add_amount]

/-- Claim C5: loading sorts the validated entries descending by
timestamp (up to nothing: it is a permutation of the valid ones), adding
any entry, backdated or not, re-establishes descending order as a
permutation of the pushed collection, deletion preserves descending
order, and the sort is stable: entries sharing a timestamp keep their
original relative order. -/
theorem C5_sortedDescendingInvariant (valid : Entry → Bool) (parsed entries : List Entry)
    (entry : Entry) (id c : Int) :
    SortedDesc (loadEntries valid parsed) ∧
    List.Perm (loadEntries valid parsed) (parsed.filter valid) ∧
    SortedDesc (addEntry entries entry) ∧
    List.Perm (addEntry entries entry) (entries ++ [entry]) ∧
    (SortedDesc entries → SortedDesc (deleteEntry entries id)) ∧
    (sortDescBy (fun e => e.timestamp) entries).filter (fun e => decide (e.timestamp = c)) =
      entries.filter (fun e => decide (e.timestamp = c)) := by
  refine ⟨pairwise_sortDescBy _ _, perm_sortDescBy _ _, pairwise_sortDescBy _ _,
    perm_sortDescBy _ _, ?_, filter_sortDescBy _ _ _⟩
  intro h
  exact h.sublist (List.filter_sublist entries)

/-- Claim C5 witness: deleting from a concrete sorted collection keeps
it sorted, at a concrete input discharging the sortedness hypothesis. -/
theorem C5_sortedDescendingInvariant_witness :
    SortedDesc (deleteEntry [⟨1, 1, "joint", "", "", 200⟩, ⟨2, 1, "bong", "", "", 100⟩] 1) := by
  have h := (C5_sortedDescendingInvariant (fun _ => true)
    [] [⟨1, 1, "joint", "", "", 200⟩, ⟨2, 1, "bong", "", "", 100⟩]
    ⟨1, 1, "joint", "", "", 200⟩ 1 0).2.2.2.2.1
  exact h (by unfold SortedDesc; decide)

/-- Claim C6: with a non-positive stash amount the progress is 0 with
the set-a-stash-goal prompt; otherwise the progress is the used ratio in
percent clamped at 100, where the usage sums the amounts of the entries
since the stash start date (now when null), and the text reports the
remaining grams or the depleted overshoot. -/
theorem C6_stashProgress (goals : Goals) (entries : List Entry) (now : Int) :
    (goals.stashAmount ≤ 0 →
      updateStashProgress goals entries now =
        (0, "Set a stash goal to track your weed supply")) ∧
    (0 < goals.stashAmount →
      (updateStashProgress goals entries now).1 =
        min (totalUsedSince goals entries now / goals.stashAmount * 100) 100 ∧
      (0 < goals.stashAmount - totalUsedSince goals entries now →
        (updateStashProgress goals entries now).2 =
          toFixed1 (goals.stashAmount - totalUsedSince goals entries now) ++
            "g left in stash") ∧
      (goals.stashAmount - totalUsedSince goals entries now ≤ 0 →
        (updateStashProgress goals entries now).2 =
          "Stash depleted by " ++
            toFixed1 |goals.stashAmount - totalUsedSince goals entries now| ++ "g")) := by
  constructor
  · intro h
    simp [updateStashProgress, h]
  · intro h
    have hns : ¬ goals.stashAmount ≤ 0 := not_le.mpr h
    have hused : (entries.filter fun e =>
        decide (goals.stashStartDate.getD now ≤ e.timestamp)).foldl
          (fun sum e => sum + e.amount) 0 = totalUsedSince goals entries now := by
      rw [foldl_add_amount, zero_add, totalUsedSince]
    refine ⟨?_, ?_, ?_⟩
    · simp only [updateStashProgress, hns, if_false, hused]
      split <;> rfl
    · intro hrem
      simp only [updateStashProgress, hns, if_false, hused]
      rw [if_pos hrem]
    · intro hrem
      simp only [updateStashProgress, hns, if_false, hused]
      rw [if_neg (not_lt.mpr hrem)]

/-- Claim C6 witness: the documented scenario with stash amount 10 and
total usage 12 yields a clamped 100 percent and the depleted-by-2.0g
text. -/
theorem C6_stashProgress_witness :
    (updateStashProgress ⟨0, "stash", 10, none, none⟩ [⟨1, 12, "joint", "", "", 5⟩] 0).1 =
      100 ∧
    (updateStashProgress ⟨0, "stash", 10, none, none⟩ [⟨1, 12, "joint", "", "", 5⟩] 0).2 =
      "Stash depleted by 2.0g" := by
  have hu : totalUsedSince ⟨0, "stash", 10, none, none⟩ [⟨1, 12, "joint", "", "", 5⟩] 0 = 12 := by
    norm_num [totalUsedSince]
  have h := (C6_stashProgress ⟨0, "stash", 10, none, none⟩ [⟨1, 12, "joint", "", "", 5⟩] 0).2
    (by norm_num)
  refine ⟨?_, ?_⟩
  · rw [h.1, hu]
    norm_num
  · rw [h.2.2 (by rw [hu]; norm_num), hu]
    have hr : round (|(10 : ℚ) - 12| * 10) = 20 := by norm_num [round_eq]
    simp only [toFixed1, hr]
    rfl

theorem mostRecent_mem (e0 : Entry) (l : List Entry) :
    mostRecent e0 l = e0 ∨ mostRecent e0 l ∈ l := by
  induction l generalizing e0 with
  | nil => exact Or.inl rfl
  | cons x xs ih =>
    have hm : mostRecent e0 (x :: xs) =
        mostRecent (if e0.timestamp < x.timestamp then x else e0) xs := rfl
    rw [hm]
    rcases ih (if e0.timestamp < x.timestamp then x else e0) with h | h
    · rw [h]
      split
      · exact Or.inr (List.mem_cons_self x xs)
      · exact Or.inl rfl
    · exact Or.inr (List.mem_cons_of_mem x h)

theorem le_mostRecent (e0 : Entry) (l : List Entry) :
    e0.timestamp ≤ (mostRecent e0 l).timestamp ∧
      ∀ e ∈ l, e.timestamp ≤ (mostRecent e0 l).timestamp := by
  induction l generalizing e0 with
  | nil => exact ⟨le_refl _, by simp⟩
  | cons x xs ih =>
    have hm : mostRecent e0 (x :: xs) =
        mostRecent (if e0.timestamp < x.timestamp then x else e0) xs := rfl
    rw [hm]
    rcases ih (if e0.timestamp < x.timestamp then x else e0) with ⟨h1, h2⟩
    refine ⟨le_trans ?_ h1, ?_⟩
    · split <;> omega
    · intro e he
      rcases List.mem_cons.mp he with rfl | hxs
      · refine le_trans ?_ h1
        split <;> omega
      · exact h2 e hxs

/-- Claim C7: with no entries the result is value 0, unit hours, text
No usage yet; otherwise the entry used is a maximum-timestamp entry
found by scanning the whole list in any order, the value is capped at
99, and when now is not before that entry the displayed unit is the
coarsest one with a non-zero whole count in the priority order years,
months, days, hours, minutes (with the year and month divisors 365.25
and 30.44 days). -/
theorem C7_timeSinceLastEvent (fmtAmount : ℚ → String) (fmtTime : Int → String)
    (entries : List Entry) (now : Int) (e0 : Entry) (rest : List Entry) :
    calculateTimeSinceLastJoint fmtAmount fmtTime [] now = ⟨0, "hours", "No usage yet"⟩ ∧
    (entries = e0 :: rest →
      (mostRecent e0 entries ∈ entries ∧
        ∀ e ∈ entries, e.timestamp ≤ (mostRecent e0 entries).timestamp) ∧
      (calculateTimeSinceLastJoint fmtAmount fmtTime entries now).value ≤ 99 ∧
      (∀ timeDiff minutes hours days months years : Int,
        timeDiff = now - (mostRecent e0 entries).timestamp →
        minutes = timeDiff.fdiv (1000 * 60) →
        hours = timeDiff.fdiv (1000 * 60 * 60) →
        days = timeDiff.fdiv (1000 * 60 * 60 * 24) →
        months = ⌊(days : ℚ) / (761 / 25)⌋ →
        years = ⌊(days : ℚ) / (1461 / 4)⌋ →
        (mostRecent e0 entries).timestamp ≤ now →
        (years ≠ 0 →
          (calculateTimeSinceLastJoint fmtAmount fmtTime entries now).unit = "years" ∧
          (calculateTimeSinceLastJoint fmtAmount fmtTime entries now).value = min years 99) ∧
        (years = 0 → months ≠ 0 →
          (calculateTimeSinceLastJoint fmtAmount fmtTime entries now).unit = "months" ∧
          (calculateTimeSinceLastJoint fmtAmount fmtTime entries now).value = min months 99) ∧
        (years = 0 → months = 0 → days ≠ 0 →
          (calculateTimeSinceLastJoint fmtAmount fmtTime entries now).unit = "days" ∧
          (calculateTimeSinceLastJoint fmtAmount fmtTime entries now).value = min days 99) ∧
        (years = 0 → months = 0 → days = 0 → hours ≠ 0 →
          (calculateTimeSinceLastJoint fmtAmount fmtTime entries now).unit = "hours" ∧
          (calculateTimeSinceLastJoint fmtAmount fmtTime entries now).value = min hours 99) ∧
        (years = 0 → months = 0 → days = 0 → hours = 0 →
          (calculateTimeSinceLastJoint fmtAmount fmtTime entries now).unit = "minutes" ∧
          (calculateTimeSinceLastJoint fmtAmount fmtTime entries now).value =
            min minutes 99))) := by
  refine ⟨rfl, ?_⟩
  rintro rfl
  have hmem2 : mostRecent e0 (e0 :: rest) ∈ e0 :: rest := by
    rcases mostRecent_mem e0 (e0 :: rest) with h | h
    · rw [h]
      exact List.mem_cons_self _ _
    · exact h
  have hle := le_mostRecent e0 (e0 :: rest)
  refine ⟨⟨hmem2, hle.2⟩, ?_, ?_⟩
  · show (calculateTimeSinceLastJoint fmtAmount fmtTime (e0 :: rest) now).value ≤ 99
    simp only [calculateTimeSinceLastJoint]
    split
    · exact min_le_right _ _
    · split
      · exact min_le_right _ _
      · split
        · exact min_le_right _ _
        · split
          · exact min_le_right _ _
          · exact min_le_right _ _
  · intro timeDiff minutes hours days months years ht hmin hh hd hmo hy hnow
    subst ht
    subst hmin
    subst hh
    subst hd
    subst hmo
    subst hy
    have hdiff : 0 ≤ now - (mostRecent e0 (e0 :: rest)).timestamp := by omega
    have hdays : 0 ≤ (now - (mostRecent e0 (e0 :: rest)).timestamp).fdiv
        (1000 * 60 * 60 * 24) := Int.fdiv_nonneg hdiff (by norm_num)
    have hhours : 0 ≤ (now - (mostRecent e0 (e0 :: rest)).timestamp).fdiv
        (1000 * 60 * 60) := Int.fdiv_nonneg hdiff (by norm_num)
    have hminutes : 0 ≤ (now - (mostRecent e0 (e0 :: rest)).timestamp).fdiv
        (1000 * 60) := Int.fdiv_nonneg hdiff (by norm_num)
    have hmonths : 0 ≤ (⌊(((now - (mostRecent e0 (e0 :: rest)).timestamp).fdiv
        (1000 * 60 * 60 * 24) : Int) : ℚ) / (761 / 25)⌋ : Int) := by
      refine Int.le_floor.mpr ?_
      rw [Int.cast_zero]
      exact div_nonneg (by exact_mod_cast hdays) (by norm_num)
    have hyears : 0 ≤ (⌊(((now - (mostRecent e0 (e0 :: rest)).timestamp).fdiv
        (1000 * 60 * 60 * 24) : Int) : ℚ) / (1461 / 4)⌋ : Int) := by
      refine Int.le_floor.mpr ?_
      rw [Int.cast_zero]
      exact div_nonneg (by exact_mod_cast hdays) (by norm_num)
    refine ⟨?_, ?_, ?_, ?_, ?_⟩
    · intro hy
      simp only [calculateTimeSinceLastJoint]
      rw [if_pos (by omega)]
      exact ⟨rfl, rfl⟩
    · intro hy hm
      simp only [calculateTimeSinceLastJoint]
      rw [if_neg (by omega), if_pos (by omega)]
      exact ⟨rfl, rfl⟩
    · intro hy hm hd
      simp only [calculateTimeSinceLastJoint]
      rw [if_neg (by omega), if_neg (by omega), if_pos (by omega)]
      exact ⟨rfl, rfl⟩
    · intro hy hm hd hh
      simp only [calculateTimeSinceLastJoint]
      rw [if_neg (by omega), if_neg (by omega), if_neg (by omega), if_pos (by omega)]
      exact ⟨rfl, rfl⟩
    · intro hy hm hd hh
      simp only [calculateTimeSinceLastJoint]
      rw [if_neg (by omega), if_neg (by omega), if_neg (by omega), if_neg (by omega)]
      exact ⟨rfl, rfl⟩

/-- Claim C7 witness: one entry two hours before now yields unit hours
and value 2, through the theorem at a concrete input. -/
theorem C7_timeSinceLastEvent_witness :
    (calculateTimeSinceLastJoint (fun _ => "") (fun _ => "")
      [⟨1, 1, "joint", "", "", 0⟩] 7200000).unit = "hours" ∧
    (calculateTimeSinceLastJoint (fun _ => "") (fun _ => "")
      [⟨1, 1, "joint", "", "", 0⟩] 7200000).value = 2 := by
  have h := ((C7_timeSinceLastEvent (fun _ => "") (fun _ => "")
    [⟨1, 1, "joint", "", "", 0⟩] 7200000 ⟨1, 1, "joint", "", "", 0⟩ []).2 rfl).2.2
  have hm : (mostRecent (⟨1, 1, "joint", "", "", 0⟩ : Entry)
      [⟨1, 1, "joint", "", "", 0⟩]).timestamp = 0 := by decide
  have hz : ((0 : Int) : ℚ) = 0 := Int.cast_zero
  have h2 := h 7200000 120 2 0 0 0 (by rw [hm]; decide) (by decide) (by decide) (by decide)
    (by rw [hz, zero_div, Int.floor_zero]) (by rw [hz, zero_div, Int.floor_zero])
    (by rw [hm]; decide)
  have h3 := h2.2.2.2.1 rfl rfl rfl (by decide)
  exact ⟨h3.1, by rw [h3.2]; decide⟩

theorem validateEntry_id_num (pd : JSVal → Option Int) (f : CandFields)
    (h : validateEntry pd (.record f) = true) :
    ∃ x : ℚ, f.id = some (.num x) ∧ x ≠ 0 := by
  rcases hid : f.id with _ | v
  · simp [validateEntry, hid, fieldTruthy, fieldIsNum] at h
  · cases v with
    | num x =>
      by_cases hx : x = 0
      · subst hx
        simp [validateEntry, hid, fieldTruthy, truthy] at h
      · exact ⟨x, rfl, hx⟩
    | nan => simp [validateEntry, hid, fieldTruthy, truthy] at h
    | str s => simp [validateEntry, hid, fieldTruthy, truthy, fieldIsNum] at h
    | jbool b => simp [validateEntry, hid, fieldTruthy, truthy, fieldIsNum] at h
    | null => simp [validateEntry, hid, fieldTruthy, truthy] at h

theorem validateEntry_method_str (pd : JSVal → Option Int) (f : CandFields)
    (h : validateEntry pd (.record f) = true) :
    ∃ m : String, f.method = some (.str m) ∧ m ≠ "" := by
  rcases hm : f.method with _ | v
  · simp [validateEntry, hm, fieldTruthy, fieldIsStr] at h
  · cases v with
    | num x => simp [validateEntry, hm, fieldTruthy, truthy, fieldIsStr] at h
    | nan => simp [validateEntry, hm, fieldTruthy, truthy, fieldIsStr] at h
    | str m =>
      by_cases hms : m = ""
      · subst hms
        simp [validateEntry, hm, fieldTruthy, truthy] at h
      · exact ⟨m, rfl, hms⟩
    | jbool b => simp [validateEntry, hm, fieldTruthy, truthy, fieldIsStr] at h
    | null => simp [validateEntry, hm, fieldTruthy, truthy] at h

/-- Claim C10: the entry validator rejects an id equal to the number 0
and an empty method string even when every other field is valid, and
any accepted record carries a truthy (nonzero) numeric id and a
non-empty method string. -/
theorem C10_truthyIdAndMethod (pd : JSVal → Option Int) (f : CandFields) :
    (f.id = some (.num 0) → validateEntry pd (.record f) = false) ∧
    (f.method = some (.str "") → validateEntry pd (.record f) = false) ∧
    (validateEntry pd (.record f) = true →
      (∃ x : ℚ, f.id = some (.num x) ∧ x ≠ 0) ∧
      ∃ m : String, f.method = some (.str m) ∧ m ≠ "") := by
  refine ⟨?_, ?_, fun h => ⟨validateEntry_id_num pd f h, validateEntry_method_str pd f h⟩⟩
  · intro h
    simp [validateEntry, h, fieldTruthy, truthy]
  · intro h
    simp [validateEntry, h, fieldTruthy, truthy]

/-- Claim C10 witness: a concrete record that is valid except for the
zero id is rejected. -/
theorem C10_truthyIdAndMethod_witness :
    validateEntry sampleParse (Cand.record ⟨some (.num 0), some (.num 1),
      some (.str "joint"), none, none, some (.str "2024-01-15T10:00")⟩) = false :=
  (C10_truthyIdAndMethod sampleParse ⟨some (.num 0), some (.num 1),
    some (.str "joint"), none, none, some (.str "2024-01-15T10:00")⟩).1 rfl

/-- Claim C9 counterexample: the claim accepts a minimal record for
every numeric id, but the record whose id is the number 0 meets all the
claimed acceptance conditions (numeric id, positive numeric amount,
string method, parseable timestamp, no notes or mood) and is still
rejected. -/
theorem C9_counterexample :
    fieldIsNum (some (.num 0)) = true ∧
    (0 : ℚ) < 1 ∧
    fieldIsStr (some (.str "joint")) = true ∧
    sampleParse (.str "2024-01-15T10:00") = some 0 ∧
    validateEntry sampleParse (Cand.record ⟨some (.num 0), some (.num 1),
      some (.str "joint"), none, none, some (.str "2024-01-15T10:00")⟩) = false := by
  refine ⟨rfl, by norm_num, rfl, by simp [sampleParse], ?_⟩
  simp [validateEntry, fieldTruthy, truthy]

/-- Claim C9 as amended: the validator is total (never throws), rejects
a missing id, a missing or non-positive amount, a missing or non-string
method, and a missing or unparseable timestamp, and accepts the minimal
record with only id, amount, method and timestamp for every truthy
(nonzero) numeric id, every amount above 0, every non-empty method
string, and every parseable timestamp, under a parser rejecting the
empty string. -/
theorem C9_entryValidatorRules (pd : JSVal → Option Int) (f : CandFields) (x a : ℚ)
    (m s : String) (t : Int) :
    (f.id = none → validateEntry pd (.record f) = false) ∧
    (f.amount = none → validateEntry pd (.record f) = false) ∧
    (∀ b : ℚ, f.amount = some (.num b) → b ≤ 0 → validateEntry pd (.record f) = false) ∧
    (f.method = none → validateEntry pd (.record f) = false) ∧
    (∀ v : JSVal, f.method = some v → fieldIsStr (some v) = false →
      validateEntry pd (.record f) = false) ∧
    (f.timestamp = none → validateEntry pd (.record f) = false) ∧
    (∀ v : JSVal, f.timestamp = some v → pd v = none →
      validateEntry pd (.record f) = false) ∧
    (x ≠ 0 → 0 < a → m ≠ "" → pd (.str "") = none → pd (.str s) = some t →
      validateEntry pd (.record ⟨some (.num x), some (.num a), some (.str m), none, none,
        some (.str s)⟩) = true) := by
  refine ⟨?_, ?_, ?_, ?_, ?_, ?_, ?_, ?_⟩
  · intro h
    simp [validateEntry, h, fieldTruthy]
  · intro h
    simp [validateEntry, h, fieldTruthy]
  · intro b hb hble
    by_cases hb0 : b = 0
    · subst hb0
      simp [validateEntry, hb, fieldTruthy, truthy]
    · simp [validateEntry, hb, fieldNumNonpos, hble]
  · intro h
    simp [validateEntry, h, fieldTruthy]
  · intro v hv hstr
    simp [validateEntry, hv, hstr]
  · intro h
    simp [validateEntry, h, fieldTruthy]
  · intro v hv hpd
    simp [validateEntry, hv, fieldValidDate, hpd]
  · intro hx ha hm hpd0 hpds
    have hs : s ≠ "" := by
      intro hse
      subst hse
      rw [hpd0] at hpds
      exact Option.noConfusion hpds
    have ha0 : a ≠ 0 := ha.ne'
    have han : ¬ a ≤ 0 := not_le.mpr ha
    simp [validateEntry, fieldTruthy, truthy, fieldIsNum, fieldIsStr, fieldNumNonpos,
      fieldValidDate, hx, hm, hs, hpds, ha0, han]

/-- Claim C9 witness: the amended acceptance at a concrete minimal
record with nonzero id, positive amount, non-empty method and parseable
timestamp. -/
theorem C9_entryValidatorRules_witness :
    validateEntry sampleParse (Cand.record ⟨some (.num 1), some (.num 1),
      some (.str "joint"), none, none, some (.str "2024")⟩) = true :=
  (C9_entryValidatorRules sampleParse ⟨none, none, none, none, none, none⟩ 1 1 "joint"
    "2024" 0).2.2.2.2.2.2.2 (by norm_num) (by norm_num) (by decide) rfl
    (by simp [sampleParse])

/-- Claim C3: a state whose entries all pass the entry validator and
whose goals and settings pass their validators exports to a document
that import validation accepts, and importing that document reproduces
the original entries, goals and settings field for field; with a valid
export date the export-side validation accepts the document as well. -/
theorem C3_exportImportRoundTrip (pd : JSVal → Option Int) (st old : AppState) (d : JSVal)
    (hE : ∀ c ∈ st.entries, validateEntry pd c = true)
    (hG : validateGoals st.goals = true)
    (hS : validateSettings st.settings = true) :
    validateImportData pd (exportDoc st d) = true ∧
    importFlow pd (exportDoc st d) old = st ∧
    (truthy d = true → (pd d).isSome = true →
      validateExportData pd (exportDoc st d) = true) := by
  have h1 : validateImportData pd (exportDoc st d) = true := by
    simp only [validateImportData, exportDoc, hG, hS, Bool.not_true, Bool.false_eq_true,
      if_false, List.all_eq_true]
    exact hE
  refine ⟨h1, ?_, ?_⟩
  · rw [importFlow, if_pos h1]
    rfl
  · intro ht hp
    simp [validateExportData, exportDoc, hG, hS, fieldTruthy, ht, fieldValidDate, hp]

/-- Claim C3 witness: a concrete valid state round-trips through export
and import unchanged. -/
theorem C3_exportImportRoundTrip_witness :
    importFlow sampleParse
      (exportDoc ⟨[Cand.record ⟨some (.num 1), some (.num 1), some (.str "joint"), none,
          none, some (.str "2024")⟩],
        GoalsCand.record ⟨some (.num 0), some (.str "reduce"), none, none, none⟩,
        SettingsCand.record ⟨some (.num 10), some (.str "USD")⟩⟩ (.str "2024"))
      ⟨[], GoalsCand.prim .null, SettingsCand.prim .null⟩ =
    ⟨[Cand.record ⟨some (.num 1), some (.num 1), some (.str "joint"), none, none,
        some (.str "2024")⟩],
      GoalsCand.record ⟨some (.num 0), some (.str "reduce"), none, none, none⟩,
      SettingsCand.record ⟨some (.num 10), some (.str "USD")⟩⟩ := by
  refine (C3_exportImportRoundTrip sampleParse _ _ (.str "2024") ?_ ?_ ?_).2.1
  · intro c hc
    simp at hc
    subst hc
    norm_num [validateEntry, fieldTruthy, truthy, fieldIsNum, fieldIsStr, fieldValidDate,
      fieldNumNonpos, sampleParse]
    exact ⟨by decide, by decide, Option.some_ne_none 0⟩
  · simp [validateGoals, goalTypeOk, goalTypeNames, fieldIsNum, fieldNumNeg]
  · simp [validateSettings, fieldIsNum, fieldNumNeg, fieldTruthy, truthy, fieldIsStr]

/-- Claim C4: an import document that is not structured, or whose
entries field is not an array, or whose goals or settings fail their
validators, or that contains a single invalid entry (for instance one
with amount 0) is rejected by import validation, and the import flow
leaves the in-memory state unchanged. -/
theorem C4_importAtomicOnError (pd : JSVal → Option Int) (st : AppState) (v : JSVal)
    (es : EntriesCand) (g : GoalsCand) (s : SettingsCand) (d : Option JSVal)
    (l : List Cand) :
    (validateImportData pd (.prim v) = false ∧ importFlow pd (.prim v) st = st) ∧
    (validateImportData pd (.record (.notArr v) g s d) = false ∧
      importFlow pd (.record (.notArr v) g s d) st = st) ∧
    (validateGoals g = false →
      validateImportData pd (.record es g s d) = false ∧
      importFlow pd (.record es g s d) st = st) ∧
    (validateSettings s = false →
      validateImportData pd (.record es g s d) = false ∧
      importFlow pd (.record es g s d) st = st) ∧
    ((∃ c ∈ l, validateEntry pd c = false) →
      validateImportData pd (.record (.arr l) g s d) = false ∧
      importFlow pd (.record (.arr l) g s d) st = st) ∧
    (∀ f : CandFields, f.amount = some (.num 0) →
      validateEntry pd (.record f) = false) := by
  have hflow : ∀ doc : ImportDoc, validateImportData pd doc = false →
      importFlow pd doc st = st := by
    intro doc hdoc
    rw [importFlow, if_neg]
    rw [hdoc]
    exact Bool.false_ne_true
  refine ⟨⟨rfl, hflow _ rfl⟩, ⟨rfl, hflow _ rfl⟩, ?_, ?_, ?_, ?_⟩
  · intro hg
    have : validateImportData pd (.record es g s d) = false := by
      cases es with
      | notArr w => rfl
      | arr l2 => simp [validateImportData, hg]
    exact ⟨this, hflow _ this⟩
  · intro hs
    have : validateImportData pd (.record es g s d) = false := by
      cases es with
      | notArr w => rfl
      | arr l2 =>
        simp only [validateImportData]
        cases hgv : validateGoals g with
        | false => simp
        | true => simp [hs]
    exact ⟨this, hflow _ this⟩
  · intro hbad
    have : validateImportData pd (.record (.arr l) g s d) = false := by
      rcases hbad with ⟨c, hc, hcv⟩
      simp only [validateImportData]
      cases hgv : validateGoals g with
      | false => simp
      | true =>
        cases hsv : validateSettings s with
        | false => simp
        | true =>
          simp only [Bool.not_true, Bool.false_eq_true, if_false]
          rw [List.all_eq_false]
          exact ⟨c, hc, by rw [hcv]; exact Bool.false_ne_true⟩
    exact ⟨this, hflow _ this⟩
  · intro f hf
    simp [validateEntry, hf, fieldTruthy, truthy]

/-- Claim C4 witness: the documented scenario, a document whose single
entry has amount 0, is rejected and the state survives unchanged. -/
theorem C4_importAtomicOnError_witness :
    validateImportData sampleParse (ImportDoc.record
      (.arr [Cand.record ⟨some (.num 1), some (.num 0), some (.str "joint"), none, none,
        some (.str "2024")⟩])
      (GoalsCand.record ⟨some (.num 0), some (.str "reduce"), none, none, none⟩)
      (SettingsCand.record ⟨some (.num 10), some (.str "USD")⟩) none) = false ∧
    importFlow sampleParse (ImportDoc.record
      (.arr [Cand.record ⟨some (.num 1), some (.num 0), some (.str "joint"), none, none,
        some (.str "2024")⟩])
      (GoalsCand.record ⟨some (.num 0), some (.str "reduce"), none, none, none⟩)
      (SettingsCand.record ⟨some (.num 10), some (.str "USD")⟩) none)
      ⟨[], GoalsCand.prim .null, SettingsCand.prim .null⟩ =
      ⟨[], GoalsCand.prim .null, SettingsCand.prim .null⟩ := by
  have h := C4_importAtomicOnError sampleParse
    ⟨[], GoalsCand.prim .null, SettingsCand.prim .null⟩ .null
    (.arr [Cand.record ⟨some (.num 1), some (.num 0), some (.str "joint"), none, none,
      some (.str "2024")⟩])
    (GoalsCand.record ⟨some (.num 0), some (.str "reduce"), none, none, none⟩)
    (SettingsCand.record ⟨some (.num 10), some (.str "USD")⟩) none
    [Cand.record ⟨some (.num 1), some (.num 0), some (.str "joint"), none, none,
      some (.str "2024")⟩]
  have hbad : validateEntry sampleParse (Cand.record ⟨some (.num 1), some (.num 0),
      some (.str "joint"), none, none, some (.str "2024")⟩) = false :=
    h.2.2.2.2.2 _ rfl
  exact h.2.2.2.2.1 ⟨_, List.mem_singleton_self _, hbad⟩

theorem storeSet_of_lt (k : Int) (b : Backup) (store : Store)
    (h : ∀ x ∈ store.map Prod.fst, x < k) : storeSet k b store = (k, b) :: store := by
  unfold storeSet
  congr 1
  apply List.filter_eq_self.mpr
  intro kv hkv
  have hlt : kv.1 < k := h kv.1 (List.mem_map_of_mem Prod.fst hkv)
  simp only [decide_eq_true_eq]
  omega

theorem filter_mem_take (store : Store) (n : Nat)
    (h : (store.map Prod.fst).Pairwise fun a b => b < a) :
    (store.filter fun kv => decide (kv.1 ∈ (store.map Prod.fst).take n)) = store.take n := by
  induction store generalizing n with
  | nil => simp
  | cons kv rest ih =>
    rw [List.map_cons] at h
    rcases List.pairwise_cons.mp h with ⟨hk, hrest⟩
    cases n with
    | zero => simp
    | succ m =>
      have hhead : decide (kv.1 ∈ (((kv :: rest).map Prod.fst).take (m + 1))) = true := by
        simp
      have hcongr : ∀ kv2 ∈ rest,
          (decide (kv2.1 ∈ (((kv :: rest).map Prod.fst).take (m + 1)))) =
            (decide (kv2.1 ∈ ((rest.map Prod.fst).take m))) := by
        intro kv2 h2
        have hne : kv2.1 ≠ kv.1 := by
          have := hk kv2.1 (List.mem_map_of_mem Prod.fst h2)
          omega
        simp only [List.map_cons, List.take_succ_cons, decide_eq_decide, List.mem_cons]
        constructor
        · intro hc
          rcases hc with hc | hc
          · exact absurd hc hne
          · exact hc
        · intro hc
          exact Or.inr hc
      have hfc : List.filter
          (fun kv2 => decide (kv2.1 ∈ (((kv :: rest).map Prod.fst).take (m + 1))))
          (kv :: rest) =
          kv :: List.filter
            (fun kv2 => decide (kv2.1 ∈ (((kv :: rest).map Prod.fst).take (m + 1)))) rest := by
        rw [List.filter_cons]
        simp [hhead]
      rw [hfc, List.filter_congr hcongr, ih m hrest, List.take_succ_cons]

theorem cleanup_of_strict (store : Store)
    (h : (store.map Prod.fst).Pairwise fun a b => b < a) :
    cleanupOldBackups store = store.take 5 := by
  unfold cleanupOldBackups
  rw [sortDescBy_of_strict (fun k => k) (store.map Prod.fst) (by simpa using h)]
  exact filter_mem_take store 5 h

theorem nodup_keys_storeSet (k : Int) (b : Backup) (store : Store)
    (h : (store.map Prod.fst).Nodup) :
    ((storeSet k b store).map Prod.fst).Nodup := by
  unfold storeSet
  simp only [List.map_cons]
  refine List.nodup_cons.mpr ⟨?_, ?_⟩
  · intro hmem
    rcases List.mem_map.mp hmem with ⟨kv, hkv, hfst⟩
    have hne := (List.mem_filter.mp hkv).2
    simp only [decide_eq_true_eq] at hne
    exact hne hfst
  · exact h.sublist ((List.filter_sublist store).map Prod.fst)

theorem cleanup_length_le (store : Store)
    (h : (store.map Prod.fst).Nodup) : (cleanupOldBackups store).length ≤ 5 := by
  unfold cleanupOldBackups
  have hnd : ((store.filter fun kv =>
      decide (kv.1 ∈ (sortDescBy (fun k => k) (store.map Prod.fst)).take 5)).map
        Prod.fst).Nodup :=
    h.sublist ((List.filter_sublist store).map Prod.fst)
  have hsub : ((store.filter fun kv =>
      decide (kv.1 ∈ (sortDescBy (fun k => k) (store.map Prod.fst)).take 5)).map
        Prod.fst) ⊆ (sortDescBy (fun k => k) (store.map Prod.fst)).take 5 := by
    intro a ha
    rcases List.mem_map.mp ha with ⟨kv, hkv, hfst⟩
    have := (List.mem_filter.mp hkv).2
    simp only [decide_eq_true_eq] at this
    rw [← hfst]
    exact this
  have hlen := (List.subperm_of_subset hnd hsub).length_le
  rw [List.length_map] at hlen
  exact le_trans hlen (List.length_take_le 5 _)

theorem cleanup_nodup (store : Store)
    (h : (store.map Prod.fst).Nodup) :
    ((cleanupOldBackups store).map Prod.fst).Nodup := by
  unfold cleanupOldBackups
  exact h.sublist ((List.filter_sublist store).map Prod.fst)

theorem take_append_take (n : Nat) (X Y : List Int) :
    (X ++ Y.take n).take n = (X ++ Y).take n := by
  rw [List.take_append_eq_append_take, List.take_append_eq_append_take, List.take_take,
    Nat.min_eq_left (Nat.sub_le _ _)]

theorem importSequence_keys (l : List (Int × AppState)) :
    ∀ store : Store,
      ((store.map Prod.fst).Pairwise fun a b => b < a) →
      store.length ≤ 5 →
      ((l.map Prod.fst).Pairwise fun a b => a < b) →
      (∀ k ∈ store.map Prod.fst, ∀ t ∈ l.map Prod.fst, k < t) →
      (importSequence l store).map Prod.fst =
        ((l.map Prod.fst).reverse ++ store.map Prod.fst).take 5 := by
  induction l with
  | nil =>
    intro store hs h5 _ _
    simp only [importSequence, List.foldl_nil, List.map_nil, List.reverse_nil,
      List.nil_append]
    rw [List.take_of_length_le]
    rw [List.length_map]
    exact h5
  | cons p rest ih =>
    intro store hs h5 hl hd
    rw [List.map_cons] at hl
    rcases List.pairwise_cons.mp hl with ⟨hp, hrest⟩
    have hdom : ∀ x ∈ store.map Prod.fst, x < p.1 := by
      intro x hx
      exact hd x hx p.1 (by simp)
    have hset : storeSet p.1 ⟨p.2, p.1⟩ store = (p.1, ⟨p.2, p.1⟩) :: store :=
      storeSet_of_lt p.1 ⟨p.2, p.1⟩ store hdom
    have hcons : (p.1 :: store.map Prod.fst).Pairwise fun a b => b < a :=
      List.pairwise_cons.mpr ⟨hdom, hs⟩
    have hstep : performImportStore p.1 p.2 store =
        ((p.1, (⟨p.2, p.1⟩ : Backup)) :: store).take 5 := by
      rw [performImportStore, hset]
      refine cleanup_of_strict _ ?_
      rw [List.map_cons]
      exact hcons
    have hkeys : ((performImportStore p.1 p.2 store).map Prod.fst) =
        ((p.1 :: store.map Prod.fst).take 5) := by
      rw [hstep, List.map_take, List.map_cons]
    have hs2 : (((performImportStore p.1 p.2 store).map Prod.fst).Pairwise
        fun a b => b < a) := by
      rw [hkeys]
      exact hcons.sublist (List.take_sublist 5 _)
    have h52 : (performImportStore p.1 p.2 store).length ≤ 5 := by
      rw [hstep]
      exact List.length_take_le 5 _
    have hd2 : ∀ k ∈ (performImportStore p.1 p.2 store).map Prod.fst,
        ∀ t ∈ rest.map Prod.fst, k < t := by
      intro k hk t ht
      rw [hkeys] at hk
      have hk2 := (List.take_sublist 5 _).subset hk
      rcases List.mem_cons.mp hk2 with rfl | hk3
      · exact hp t ht
      · exact hd k hk3 t (List.mem_cons_of_mem _ ht)
    have := ih (performImportStore p.1 p.2 store) hs2 h52 hrest hd2
    show (importSequence rest (performImportStore p.1 p.2 store)).map Prod.fst = _
    rw [this, hkeys, take_append_take, List.map_cons, List.reverse_cons,
      List.append_assoc, List.cons_append, List.nil_append]

/-- Claim C8: a committed import writes the snapshot under the new
epoch-millisecond backup key and the cleanup keeps at most 5 backups
(for a store with distinct keys), and starting from any well-formed
backup store, 7 imports at increasing times leave exactly 5 backups,
keyed by the 5 most recent import times. -/
theorem C8_backupRetention (now : Int) (st : AppState) (store : Store)
    (l : List (Int × AppState)) :
    ((store.map Prod.fst).Nodup →
      (performImportStore now st store).length ≤ 5 ∧
      ((performImportStore now st store).map Prod.fst).Nodup) ∧
    (((store.map Prod.fst).Pairwise fun a b => b < a) →
      store.length ≤ 5 →
      ((l.map Prod.fst).Pairwise fun a b => a < b) →
      (∀ k ∈ store.map Prod.fst, ∀ t ∈ l.map Prod.fst, k < t) →
      l.length = 7 →
      (importSequence l store).map Prod.fst = ((l.map Prod.fst).reverse).take 5 ∧
      (importSequence l store).length = 5) := by
  constructor
  · intro hnd
    have hnd2 := nodup_keys_storeSet now ⟨st, now⟩ store hnd
    exact ⟨cleanup_length_le _ hnd2, cleanup_nodup _ hnd2⟩
  · intro hs h5 hl hd h7
    have hkeys := importSequence_keys l store hs h5 hl hd
    have hrevlen : 5 ≤ ((l.map Prod.fst).reverse).length := by
      rw [List.length_reverse, List.length_map, h7]
      omega
    have hkeys2 : (importSequence l store).map Prod.fst =
        ((l.map Prod.fst).reverse).take 5 := by
      rw [hkeys, List.take_append_of_le_length hrevlen]
    refine ⟨hkeys2, ?_⟩
    have := congrArg List.length hkeys2
    rw [List.length_map, List.length_take] at this
    rw [this, List.length_reverse, List.length_map, h7]
    omega

/-- Claim C8 witness: from the empty store, 7 imports at times 1 to 7
leave exactly the 5 backups keyed 7, 6, 5, 4, 3. -/
theorem C8_backupRetention_witness :
    (importSequence [(1, ⟨[], .prim .null, .prim .null⟩), (2, ⟨[], .prim .null, .prim .null⟩),
      (3, ⟨[], .prim .null, .prim .null⟩), (4, ⟨[], .prim .null, .prim .null⟩),
      (5, ⟨[], .prim .null, .prim .null⟩), (6, ⟨[], .prim .null, .prim .null⟩),
      (7, ⟨[], .prim .null, .prim .null⟩)] []).map Prod.fst = [7, 6, 5, 4, 3] ∧
    (importSequence [(1, ⟨[], .prim .null, .prim .null⟩), (2, ⟨[], .prim .null, .prim .null⟩),
      (3, ⟨[], .prim .null, .prim .null⟩), (4, ⟨[], .prim .null, .prim .null⟩),
      (5, ⟨[], .prim .null, .prim .null⟩), (6, ⟨[], .prim .null, .prim .null⟩),
      (7, ⟨[], .prim .null, .prim .null⟩)] []).length = 5 := by
  have h := (C8_backupRetention 0 ⟨[], .prim .null, .prim .null⟩ []
    [(1, ⟨[], .prim .null, .prim .null⟩), (2, ⟨[], .prim .null, .prim .null⟩),
      (3, ⟨[], .prim .null, .prim .null⟩), (4, ⟨[], .prim .null, .prim .null⟩),
      (5, ⟨[], .prim .null, .prim .null⟩), (6, ⟨[], .prim .null, .prim .null⟩),
      (7, ⟨[], .prim .null, .prim .null⟩)]).2 (by simp) (by simp)
    (by simp) (by simp) rfl
  exact ⟨by rw [h.1]; rfl, h.2⟩

end WeedTracker
